import Mathlib

/-!
Verification development for the single-server queue simulation kernel of the
Simulation-and-Modeling-Lab repository.

The kernel exists twice in the repository: a Python data-app
(`inter_arrival_time_from_rn`, `service_time_from_rn`, `simulate_queue`,
`compute_summaries`) and a TypeScript port (`interArrivalTimeFromRn`,
`serviceTimeFromRn`, `simulateQueue`).  Both are embedded below.  Python ints
are unbounded, so all quantities are modelled as `Int`; Python floats appearing
in the summary (`mean`, utilization) are exact ratios of integers here, modelled
as `ℚ`.  A raised exception is modelled as `Except.error`; the distinct error
messages of the sources become the constructors of `QErr`.
-/

deriving instance DecidableEq for Except

/-- The distinct failure modes of the kernel (each a distinct raised error in
the sources). `emptyInput` stands for the failure of `compute_summaries` on an
empty frame, where `int(df["Wait"].max())` raises on `NaN`. -/
inductive QErr where
  | domainIat
  | domainSt
  | invalidCount
  | lengthMismatch
  | emptyInput
deriving DecidableEq, Repr

/-- One row of the simulation table: columns
`Cust, RN_IAT, IAT, Arrival, RN_ST, ST, TSB, Wait, TSE, TimeInSystem, ServerIdle`. -/
structure Record where
  cust : Int
  rn_iat : Int
  iat : Int
  arrival : Int
  rn_st : Int
  st : Int
  tsb : Int
  wt : Int
  tse : Int
  tis : Int
  idle : Int
deriving DecidableEq, Repr

/-- Python `inter_arrival_time_from_rn` (part_000 lines 457-466): cascading
`if rn < b: return v` tests ending in `if rn <= 1000: return 8`, otherwise
`raise ValueError("IAT RN must be in 1..1000")`.  Note the source has no lower
bound check. -/
def inter_arrival_time_from_rn (rn : Int) : Except QErr Int :=
  if rn < 126 then .ok 1
  else if rn < 251 then .ok 2
  else if rn < 376 then .ok 3
  else if rn < 501 then .ok 4
  else if rn < 626 then .ok 5
  else if rn < 751 then .ok 6
  else if rn < 876 then .ok 7
  else if rn ≤ 1000 then .ok 8
  else .error .domainIat

/-- Python `service_time_from_rn` (part_000 lines 468-475). -/
def service_time_from_rn (rn : Int) : Except QErr Int :=
  if rn < 30 then .ok 1
  else if rn < 50 then .ok 2
  else if rn < 60 then .ok 3
  else if rn < 65 then .ok 4
  else if rn < 75 then .ok 5
  else if rn ≤ 100 then .ok 6
  else .error .domainSt

/-- TypeScript `interArrivalTimeFromRn` (app_design lines 58-68): rejects
`rn < 1 || rn > 1000` up front, then the same bands. -/
def interArrivalTimeFromRn (rn : Int) : Except QErr Int :=
  if rn < 1 ∨ rn > 1000 then .error .domainIat
  else if rn < 126 then .ok 1
  else if rn < 251 then .ok 2
  else if rn < 376 then .ok 3
  else if rn < 501 then .ok 4
  else if rn < 626 then .ok 5
  else if rn < 751 then .ok 6
  else if rn < 876 then .ok 7
  else .ok 8

/-- TypeScript `serviceTimeFromRn` (app_design lines 70-78). -/
def serviceTimeFromRn (rn : Int) : Except QErr Int :=
  if rn < 1 ∨ rn > 100 then .error .domainSt
  else if rn < 30 then .ok 1
  else if rn < 50 then .ok 2
  else if rn < 60 then .ok 3
  else if rn < 65 then .ok 4
  else if rn < 75 then .ok 5
  else .ok 6

/-- A Python list comprehension `[f x for x in xs]` where `f` may raise:
elements are evaluated left to right and the first exception aborts the whole
list. -/
def mapE (f : Int → Except QErr Int) : List Int → Except QErr (List Int)
  | [] => .ok []
  | x :: xs =>
    match f x with
    | .error e => .error e
    | .ok v =>
      match mapE f xs with
      | .error e => .error e
      | .ok vs => .ok (v :: vs)

/-- Record 0 of `simulate_queue`: `iat[0] = 0`, hence `arrival[0] = 0`, and the
loop never touches index 0 of `tsb`/`wt`/`idle` (they stay at their `[0]*n`
initialisation) while `tse[0] = tis[0] = stime[0]`. -/
def firstRecord (ri0 rs0 st0 : Int) : Record :=
  ⟨1, ri0, 0, 0, rs0, st0, 0, 0, st0, st0, 0⟩

/-- The `for i in range(1, n)` loop of `simulate_queue` (part_000 lines
507-513), carrying the previous row's `arrival` and `tse`.  Each list element
packs one index's `(rn_iat, iat)` and `(rn_st, st)` values. -/
def simLoop (prevArrival prevTse idx : Int) :
    List ((Int × Int) × (Int × Int)) → List Record
  | [] => []
  | ((ri, iatv), (rs, stv)) :: rest =>
    let arrival := prevArrival + iatv
    let tsb := max prevTse arrival
    let wt := tsb - arrival
    let tse := tsb + stv
    let tis := stv + wt
    let idle := max 0 (tsb - prevTse)
    ⟨idx, ri, iatv, arrival, rs, stv, tsb, wt, tse, tis, idle⟩ ::
      simLoop arrival tse (idx + 1) rest

/-- Python `simulate_queue` (part_000 lines 486-527), for a run whose random
streams are the two given lists (a supplied stream, or the one produced by the
entropy source when the stream is omitted).  Validation order follows the
source: `n <= 0` first, then the length check, then `iat` mapping over the
whole stream (index 0 included, before it is overwritten by `iat[0] = 0`),
then `st` mapping.  The final `match` arm is unreachable once `n ≥ 1` and both
lengths equal `n`. -/
def simulate_queue (n : Int) (rn_iat rn_st : List Int) :
    Except QErr (List Record) :=
  if n ≤ 0 then .error .invalidCount
  else if (rn_iat.length : Int) ≠ n ∨ (rn_st.length : Int) ≠ n then
    .error .lengthMismatch
  else
    match rn_iat, rn_st with
    | ri0 :: riRest, rs0 :: rsRest =>
      match inter_arrival_time_from_rn ri0 with
      | .error e => .error e
      | .ok _ =>
        match mapE inter_arrival_time_from_rn riRest with
        | .error e => .error e
        | .ok iatRest =>
          match service_time_from_rn rs0 with
          | .error e => .error e
          | .ok st0 =>
            match mapE service_time_from_rn rsRest with
            | .error e => .error e
            | .ok stRest =>
              .ok (firstRecord ri0 rs0 st0 ::
                simLoop 0 st0 2 ((riRest.zip iatRest).zip (rsRest.zip stRest)))
    | _, _ => .error .invalidCount

/-- Summary rows of `compute_summaries`. -/
structure Summary where
  avg_wait : ℚ
  max_wait : Int
  total_idle : Int
  util : ℚ
  horizon_end : Int
deriving DecidableEq, Repr

/-- Python `compute_summaries` (part_000 lines 537-559).  On a non-empty table:
`ST` and `ServerIdle` column sums, `Wait` mean and max, utilization
`total_service / (total_service + total_idle)` guarded by `> 0`, and the last
`TSE`.  On an empty table the source raises (converting the `NaN` max of an
empty column to `int`), modelled as `QErr.emptyInput`. -/
def compute_summaries (recs : List Record) : Except QErr Summary :=
  match recs with
  | [] => .error .emptyInput
  | r0 :: rest =>
    let total_service := ((r0 :: rest).map fun r => r.st).sum
    let total_idle := ((r0 :: rest).map fun r => r.idle).sum
    let avg_wait : ℚ :=
      ((((r0 :: rest).map fun r => r.wt).sum : Int) : ℚ) /
        (((r0 :: rest).length : Int) : ℚ)
    let max_wait := (rest.map fun r => r.wt).foldl max r0.wt
    let util : ℚ :=
      if 0 < total_service + total_idle then
        ((total_service : Int) : ℚ) / (((total_service + total_idle : Int)) : ℚ)
      else 0
    let horizon_end := ((r0 :: rest).getLast (by simp)).tse
    .ok ⟨avg_wait, max_wait, total_idle, util, horizon_end⟩

/-- Band lookup, written out from the spec's words for `mapInterArrival`:
`<126→1, <251→2, <376→3, <501→4, <626→5, <751→6, <876→7, <=1000→8`. -/
def bandIat (rn : Int) : Int :=
  if rn < 126 then 1
  else if rn < 251 then 2
  else if rn < 376 then 3
  else if rn < 501 then 4
  else if rn < 626 then 5
  else if rn < 751 then 6
  else if rn < 876 then 7
  else 8

/-- Band lookup from the spec's words for `mapServiceTime`:
`<30→1, <50→2, <60→3, <65→4, <75→5, <=100→6`. -/
def bandSt (rn : Int) : Int :=
  if rn < 30 then 1
  else if rn < 50 then 2
  else if rn < 60 then 3
  else if rn < 65 then 4
  else if rn < 75 then 5
  else 6

/-- The recurrence linking two consecutive rows of the table (part_000 lines
507-513): exactly the six assignments of the loop body, with `r` the previous
row and `s` the current one. -/
def adjacentOk (r s : Record) : Prop :=
  s.arrival = r.arrival + s.iat ∧
  s.tsb = max r.tse s.arrival ∧
  s.wt = s.tsb - s.arrival ∧
  s.tse = s.tsb + s.st ∧
  s.tis = s.st + s.wt ∧
  s.idle = max 0 (s.tsb - r.tse)

/-! ### Facts about the mapping functions -/

lemma inter_arrival_eq_band {rn : Int} (h : rn ≤ 1000) :
    inter_arrival_time_from_rn rn = .ok (bandIat rn) := by
  unfold inter_arrival_time_from_rn bandIat
  split_ifs <;> rfl

lemma service_eq_band {rn : Int} (h : rn ≤ 100) :
    service_time_from_rn rn = .ok (bandSt rn) := by
  unfold service_time_from_rn bandSt
  split_ifs <;> rfl

lemma bandIat_range (rn : Int) : 1 ≤ bandIat rn ∧ bandIat rn ≤ 8 := by
  unfold bandIat; split_ifs <;> omega

lemma bandSt_range (rn : Int) : 1 ≤ bandSt rn ∧ bandSt rn ≤ 6 := by
  unfold bandSt; split_ifs <;> omega

set_option maxHeartbeats 1000000 in
lemma bandIat_mono {rn rn' : Int} (h : rn ≤ rn') : bandIat rn ≤ bandIat rn' := by
  unfold bandIat; split_ifs <;> omega

set_option maxHeartbeats 1000000 in
lemma bandSt_mono {rn rn' : Int} (h : rn ≤ rn') : bandSt rn ≤ bandSt rn' := by
  unfold bandSt; split_ifs <;> omega

lemma service_ok_range {rn v : Int} (h : service_time_from_rn rn = .ok v) :
    1 ≤ v ∧ v ≤ 6 := by
  unfold service_time_from_rn at h
  split_ifs at h <;> simp at h <;> omega

/-! ### Facts about `mapE` -/

lemma mapE_ok_forall {f : Int → Except QErr Int} :
    ∀ {xs vs : List Int}, mapE f xs = .ok vs → ∀ v ∈ vs, ∃ x ∈ xs, f x = .ok v := by
  intro xs
  induction xs with
  | nil => intro vs h v hv; simp [mapE] at h; subst h; simp at hv
  | cons x t ih =>
    intro vs h v hv
    unfold mapE at h
    cases hfx : f x with
    | error e => rw [hfx] at h; simp at h
    | ok v0 =>
      rw [hfx] at h
      cases ht : mapE f t with
      | error e => rw [ht] at h; simp at h
      | ok vs0 =>
        rw [ht] at h
        simp only [Except.ok.injEq] at h
        subst h
        rcases List.mem_cons.mp hv with rfl | hv
        · exact ⟨x, List.mem_cons_self x t, hfx⟩
        · obtain ⟨y, hy, hfy⟩ := ih ht v hv
          exact ⟨y, List.mem_cons_of_mem x hy, hfy⟩

lemma mem_zip_right {α β : Type} :
    ∀ {l1 : List α} {l2 : List β} {p : α × β}, p ∈ l1.zip l2 → p.2 ∈ l2 := by
  intro l1
  induction l1 with
  | nil => intro l2 p h; simp [List.zip] at h
  | cons a t ih =>
    intro l2 p h
    cases l2 with
    | nil => simp [List.zip] at h
    | cons b t2 =>
      rw [List.zip_cons_cons] at h
      rcases List.mem_cons.mp h with rfl | h
      · exact List.mem_cons_self b t2
      · exact List.mem_cons_of_mem b (ih h)

/-! ### Inversion of a successful `simulate_queue` run -/

lemma simulate_queue_ok_shape {n : Int} {ri rs : List Int} {recs : List Record}
    (h : simulate_queue n ri rs = .ok recs) :
    ∃ ri0 riR rs0 rsR iatR st0 stR,
      ri = ri0 :: riR ∧ rs = rs0 :: rsR ∧
      mapE inter_arrival_time_from_rn riR = .ok iatR ∧
      service_time_from_rn rs0 = .ok st0 ∧
      mapE service_time_from_rn rsR = .ok stR ∧
      recs = firstRecord ri0 rs0 st0 ::
        simLoop 0 st0 2 ((riR.zip iatR).zip (rsR.zip stR)) := by
  unfold simulate_queue at h
  split_ifs at h
  split at h
  · split at h
    · simp at h
    · split at h
      · simp at h
      · split at h
        · simp at h
        · split at h
          · simp at h
          · simp only [Except.ok.injEq] at h
            refine ⟨_, _, _, _, _, _, _, rfl, rfl, ?_, ?_, ?_, h.symm⟩ <;>
              assumption
  · simp at h

/-! ### The loop invariants -/

lemma chain_simLoop (ps : List ((Int × Int) × (Int × Int))) :
    ∀ (r : Record) (idx : Int),
      List.Chain' adjacentOk (r :: simLoop r.arrival r.tse idx ps) := by
  induction ps with
  | nil => intro r idx; simp [simLoop]
  | cons p t ih =>
    intro r idx
    obtain ⟨⟨ri, iatv⟩, rs, stv⟩ := p
    simp only [simLoop]
    exact List.Chain'.cons ⟨rfl, rfl, rfl, rfl, rfl, rfl⟩
      (ih ⟨idx, ri, iatv, r.arrival + iatv, rs, stv, max r.tse (r.arrival + iatv),
        max r.tse (r.arrival + iatv) - (r.arrival + iatv),
        max r.tse (r.arrival + iatv) + stv,
        stv + (max r.tse (r.arrival + iatv) - (r.arrival + iatv)),
        max 0 (max r.tse (r.arrival + iatv) - r.tse)⟩ (idx + 1))

lemma simulate_queue_ok_chain {n : Int} {ri rs : List Int} {recs : List Record}
    (h : simulate_queue n ri rs = .ok recs) : List.Chain' adjacentOk recs := by
  obtain ⟨ri0, riR, rs0, rsR, iatR, st0, stR, -, -, -, -, -, hrecs⟩ :=
    simulate_queue_ok_shape h
  subst hrecs
  exact chain_simLoop ((riR.zip iatR).zip (rsR.zip stR)) (firstRecord ri0 rs0 st0) 2

lemma simLoop_mem_inv (ps : List ((Int × Int) × (Int × Int)))
    (hst : ∀ p ∈ ps, 1 ≤ p.2.2) :
    ∀ pa pt idx, ∀ r ∈ simLoop pa pt idx ps, 1 ≤ r.st ∧ 0 ≤ r.wt ∧ 0 ≤ r.idle := by
  induction ps with
  | nil => intro pa pt idx r hr; simp [simLoop] at hr
  | cons p t ih =>
    obtain ⟨⟨ri, iatv⟩, rs, stv⟩ := p
    intro pa pt idx r hr
    simp only [simLoop, List.mem_cons] at hr
    rcases hr with rfl | hr
    · refine ⟨hst _ (List.mem_cons_self _ _), ?_, le_max_left 0 _⟩
      have h1 := le_max_right pt (pa + iatv)
      simp only
      omega
    · exact ih (fun q hq => hst q (List.mem_cons_of_mem _ hq)) _ _ _ r hr

lemma simulate_queue_mem_inv {n : Int} {ri rs : List Int} {recs : List Record}
    (h : simulate_queue n ri rs = .ok recs) :
    ∀ r ∈ recs, 1 ≤ r.st ∧ 0 ≤ r.wt ∧ 0 ≤ r.idle := by
  obtain ⟨ri0, riR, rs0, rsR, iatR, st0, stR, -, -, -, hS0, hSR, hrecs⟩ :=
    simulate_queue_ok_shape h
  subst hrecs
  intro r hr
  rcases List.mem_cons.mp hr with rfl | hr
  · exact ⟨(service_ok_range hS0).1, le_refl 0, le_refl 0⟩
  · refine simLoop_mem_inv _ ?_ _ _ _ r hr
    intro p hp
    have hmem : p.2.2 ∈ stR := mem_zip_right (mem_zip_right hp)
    obtain ⟨x, -, hx⟩ := mapE_ok_forall hSR _ hmem
    exact (service_ok_range hx).1

lemma conservation_arith {P A tsb wt idle : Int}
    (e2 : tsb = max P A) (e3 : wt = tsb - A) (e6 : idle = max 0 (tsb - P)) :
    0 ≤ wt ∧ 0 ≤ idle ∧
    ((tsb = P ∧ P = A) → wt = 0 ∧ idle = 0) ∧
    (¬(tsb = P ∧ P = A) → (0 < wt ∧ idle = 0) ∨ (0 < idle ∧ wt = 0)) := by
  rcases le_total P A with hle | hle
  · rw [max_eq_right hle] at e2
    rw [max_eq_right (by omega)] at e6
    omega
  · rw [max_eq_left hle] at e2
    have h0 : tsb - P = 0 := by omega
    rw [h0] at e6
    simp only [max_self] at e6
    omega

/-! ### Claim theorems -/

/-- C1: in every successful `simulate_queue` run, every record with index
`i ≥ 1` satisfies the six recurrence equations linking it to its predecessor:
`arrival[i] = arrival[i-1] + iat[i]`, `tsb[i] = max(tse[i-1], arrival[i])`,
`wt[i] = tsb[i] - arrival[i]`, `tse[i] = tsb[i] + st[i]`,
`tis[i] = st[i] + wt[i]`, `idle[i] = max(0, tsb[i] - tse[i-1])`. -/
theorem claim_c1_recurrence {n : Int} {ri rs : List Int} {recs : List Record}
    (h : simulate_queue n ri rs = .ok recs) (i : Nat) (h1 : 1 ≤ i)
    (h2 : i < recs.length) :
    (recs.get ⟨i, h2⟩).arrival
        = (recs.get ⟨i - 1, by omega⟩).arrival + (recs.get ⟨i, h2⟩).iat ∧
    (recs.get ⟨i, h2⟩).tsb
        = max (recs.get ⟨i - 1, by omega⟩).tse (recs.get ⟨i, h2⟩).arrival ∧
    (recs.get ⟨i, h2⟩).wt = (recs.get ⟨i, h2⟩).tsb - (recs.get ⟨i, h2⟩).arrival ∧
    (recs.get ⟨i, h2⟩).tse = (recs.get ⟨i, h2⟩).tsb + (recs.get ⟨i, h2⟩).st ∧
    (recs.get ⟨i, h2⟩).tis = (recs.get ⟨i, h2⟩).st + (recs.get ⟨i, h2⟩).wt ∧
    (recs.get ⟨i, h2⟩).idle
        = max 0 ((recs.get ⟨i, h2⟩).tsb - (recs.get ⟨i - 1, by omega⟩).tse) := by
  have hc := simulate_queue_ok_chain h
  rw [List.chain'_iff_get] at hc
  obtain ⟨j, rfl⟩ : ∃ j, i = j + 1 := ⟨i - 1, by omega⟩
  have hadj := hc j (by omega)
  simpa [adjacentOk, Nat.add_sub_cancel] using hadj

/-- Witness for C1: the run `n = 2`, `rnIat = [126, 126]`, `rnSt = [30, 30]`
at index `i = 1`: the second record is `⟨2, 126, 2, 2, 30, 2, 2, 0, 4, 2, 0⟩`
and the six equations hold there. -/
theorem claim_c1_witness :
    simulate_queue 2 [126, 126] [30, 30] =
      .ok [⟨1, 126, 0, 0, 30, 2, 0, 0, 2, 2, 0⟩,
           ⟨2, 126, 2, 2, 30, 2, 2, 0, 4, 2, 0⟩] ∧
    ((2 : Int) = 0 + 2 ∧ (2 : Int) = max 2 2 ∧ (0 : Int) = 2 - 2 ∧
     (4 : Int) = 2 + 2 ∧ (2 : Int) = 2 + 0 ∧ (0 : Int) = max 0 (2 - 2)) :=
  ⟨rfl, @claim_c1_recurrence 2 [126, 126] [30, 30]
    [⟨1, 126, 0, 0, 30, 2, 0, 0, 2, 2, 0⟩, ⟨2, 126, 2, 2, 30, 2, 2, 0, 4, 2, 0⟩]
    rfl 1 (by omega) (by decide)⟩

/-- C2: on the domain `1..1000`, `inter_arrival_time_from_rn` returns exactly
the spec's band lookup `bandIat`, whose value lies in `1..8`; on `1..100`,
`service_time_from_rn` returns `bandSt`, in `1..6`; and both functions are
monotonically non-decreasing in `rn` over their domains. -/
theorem claim_c2_bands (rn : Int) :
    (1 ≤ rn → rn ≤ 1000 →
      inter_arrival_time_from_rn rn = .ok (bandIat rn) ∧
      1 ≤ bandIat rn ∧ bandIat rn ≤ 8) ∧
    (1 ≤ rn → rn ≤ 100 →
      service_time_from_rn rn = .ok (bandSt rn) ∧
      1 ≤ bandSt rn ∧ bandSt rn ≤ 6) ∧
    (∀ rn' v v', 1 ≤ rn → rn ≤ rn' → rn' ≤ 1000 →
      inter_arrival_time_from_rn rn = .ok v →
      inter_arrival_time_from_rn rn' = .ok v' → v ≤ v') ∧
    (∀ rn' v v', 1 ≤ rn → rn ≤ rn' → rn' ≤ 100 →
      service_time_from_rn rn = .ok v →
      service_time_from_rn rn' = .ok v' → v ≤ v') := by
  refine ⟨fun _ h2 => ⟨inter_arrival_eq_band h2, bandIat_range rn⟩,
    fun _ h2 => ⟨service_eq_band h2, bandSt_range rn⟩, ?_, ?_⟩
  · intro rn' v v' _ hle hub hv hv'
    rw [inter_arrival_eq_band (le_trans hle hub)] at hv
    rw [inter_arrival_eq_band hub] at hv'
    simp only [Except.ok.injEq] at hv hv'
    rw [← hv, ← hv']
    exact bandIat_mono hle
  · intro rn' v v' _ hle hub hv hv'
    rw [service_eq_band (le_trans hle hub)] at hv
    rw [service_eq_band hub] at hv'
    simp only [Except.ok.injEq] at hv hv'
    rw [← hv, ← hv']
    exact bandSt_mono hle

/-- Witness for C2: at `rn = 500` (band value 4) and `rn = 50` (band value 3),
with monotonicity exercised against `rn' = 1000` and `rn' = 100`. -/
theorem claim_c2_witness :
    (inter_arrival_time_from_rn 500 = .ok (bandIat 500) ∧
      1 ≤ bandIat 500 ∧ bandIat 500 ≤ 8) ∧
    (service_time_from_rn 50 = .ok (bandSt 50) ∧
      1 ≤ bandSt 50 ∧ bandSt 50 ≤ 6) ∧
    (4 : Int) ≤ 8 ∧ (3 : Int) ≤ 6 :=
  ⟨(claim_c2_bands 500).1 (by omega) (by omega),
   (claim_c2_bands 50).2.1 (by omega) (by omega),
   (claim_c2_bands 500).2.2.1 1000 4 8 (by omega) (by omega) (by omega) rfl rfl,
   (claim_c2_bands 50).2.2.2 100 3 6 (by omega) (by omega) (by omega) rfl rfl⟩

/-- C3: in every successful `simulate_queue` run, record 0 has
`iat = 0`, `arrival = 0`, `tsb = 0`, `wt = 0`, `idle = 0`, `tse = st` and
`tis = st`, regardless of the raw `rnIat` draw at index 0. -/
theorem claim_c3_first_record {n : Int} {ri rs : List Int} {recs : List Record}
    (h : simulate_queue n ri rs = .ok recs) :
    ∃ h0 : 0 < recs.length,
      (recs.get ⟨0, h0⟩).iat = 0 ∧ (recs.get ⟨0, h0⟩).arrival = 0 ∧
      (recs.get ⟨0, h0⟩).tsb = 0 ∧ (recs.get ⟨0, h0⟩).wt = 0 ∧
      (recs.get ⟨0, h0⟩).idle = 0 ∧
      (recs.get ⟨0, h0⟩).tse = (recs.get ⟨0, h0⟩).st ∧
      (recs.get ⟨0, h0⟩).tis = (recs.get ⟨0, h0⟩).st := by
  obtain ⟨ri0, riR, rs0, rsR, iatR, st0, stR, -, -, -, -, -, hrecs⟩ :=
    simulate_queue_ok_shape h
  subst hrecs
  exact ⟨by simp, rfl, rfl, rfl, rfl, rfl, rfl, rfl⟩

/-- Witness for C3: the run `n = 1`, `rnIat = [1]`, `rnSt = [1]`. -/
theorem claim_c3_witness :
    simulate_queue 1 [1] [1] = .ok [⟨1, 1, 0, 0, 1, 1, 0, 0, 1, 1, 0⟩] ∧
    ∃ _ : 0 < ([⟨1, 1, 0, 0, 1, 1, 0, 0, 1, 1, 0⟩] : List Record).length,
      (0 : Int) = 0 ∧ (0 : Int) = 0 ∧ (0 : Int) = 0 ∧ (0 : Int) = 0 ∧
      (0 : Int) = 0 ∧ (1 : Int) = 1 ∧ (1 : Int) = 1 :=
  ⟨rfl, @claim_c3_first_record 1 [1] [1] [⟨1, 1, 0, 0, 1, 1, 0, 0, 1, 1, 0⟩] rfl⟩

/-- C4 (records the divergence): the Python mapping functions do not reject
draws below their domain: `inter_arrival_time_from_rn 0` returns 1 (its own
error message claims the domain is `1..1000`) and `service_time_from_rn 0`
returns 1, while the TypeScript port rejects 0 as the claim states; draws
above the domain are rejected by both implementations. -/
theorem claim_c4_domain_check :
    inter_arrival_time_from_rn 0 = .ok 1 ∧
    service_time_from_rn 0 = .ok 1 ∧
    inter_arrival_time_from_rn 1001 = .error .domainIat ∧
    service_time_from_rn 101 = .error .domainSt ∧
    interArrivalTimeFromRn 0 = .error .domainIat ∧
    interArrivalTimeFromRn 1001 = .error .domainIat ∧
    serviceTimeFromRn 0 = .error .domainSt ∧
    serviceTimeFromRn 101 = .error .domainSt :=
  ⟨rfl, rfl, rfl, rfl, rfl, rfl, rfl, rfl⟩

/-- C5: in every successful `simulate_queue` run and at every index `i ≥ 1`,
`wt[i] ≥ 0` and `idle[i] ≥ 0`; when `tsb[i] = tse[i-1] = arrival[i]` both are
zero, and otherwise exactly one of `wt[i] > 0`, `idle[i] > 0` holds. -/
theorem claim_c5_conservation {n : Int} {ri rs : List Int} {recs : List Record}
    (h : simulate_queue n ri rs = .ok recs) (i : Nat) (h1 : 1 ≤ i)
    (h2 : i < recs.length) :
    0 ≤ (recs.get ⟨i, h2⟩).wt ∧ 0 ≤ (recs.get ⟨i, h2⟩).idle ∧
    (((recs.get ⟨i, h2⟩).tsb = (recs.get ⟨i - 1, by omega⟩).tse ∧
      (recs.get ⟨i - 1, by omega⟩).tse = (recs.get ⟨i, h2⟩).arrival) →
      (recs.get ⟨i, h2⟩).wt = 0 ∧ (recs.get ⟨i, h2⟩).idle = 0) ∧
    (¬((recs.get ⟨i, h2⟩).tsb = (recs.get ⟨i - 1, by omega⟩).tse ∧
      (recs.get ⟨i - 1, by omega⟩).tse = (recs.get ⟨i, h2⟩).arrival) →
      (0 < (recs.get ⟨i, h2⟩).wt ∧ (recs.get ⟨i, h2⟩).idle = 0) ∨
      (0 < (recs.get ⟨i, h2⟩).idle ∧ (recs.get ⟨i, h2⟩).wt = 0)) := by
  have hc := simulate_queue_ok_chain h
  rw [List.chain'_iff_get] at hc
  obtain ⟨j, rfl⟩ : ∃ j, i = j + 1 := ⟨i - 1, by omega⟩
  obtain ⟨-, e2, e3, -, -, e6⟩ := hc j (by omega)
  exact conservation_arith e2 e3 e6

/-- Witness for C5: the run `n = 2`, `rnIat = [1, 1000]`, `rnSt = [1, 1]`
at index 1, where the server idles 7 units and the customer never waits. -/
theorem claim_c5_witness :
    simulate_queue 2 [1, 1000] [1, 1] =
      .ok [⟨1, 1, 0, 0, 1, 1, 0, 0, 1, 1, 0⟩,
           ⟨2, 1000, 8, 8, 1, 1, 8, 0, 9, 1, 7⟩] ∧
    ((0 : Int) ≤ 0 ∧ (0 : Int) ≤ 7 ∧
     (((8 : Int) = 1 ∧ (1 : Int) = 8) → (0 : Int) = 0 ∧ (7 : Int) = 0) ∧
     (¬((8 : Int) = 1 ∧ (1 : Int) = 8) →
      ((0 : Int) < 0 ∧ (7 : Int) = 0) ∨ ((0 : Int) < 7 ∧ (0 : Int) = 0))) :=
  ⟨rfl, @claim_c5_conservation 2 [1, 1000] [1, 1]
    [⟨1, 1, 0, 0, 1, 1, 0, 0, 1, 1, 0⟩, ⟨2, 1000, 8, 8, 1, 1, 8, 0, 9, 1, 7⟩]
    rfl 1 (by omega) (by decide)⟩

/-- C7: `simulate_queue` rejects `n < 1` with `invalidCount`, rejects (for
valid `n`) a stream whose length differs from `n` with `lengthMismatch`, and
any successful run implies all three validations passed — an error result
carries no records at all. -/
theorem claim_c7_fail_fast (n : Int) (ri rs : List Int) :
    (n < 1 → simulate_queue n ri rs = .error .invalidCount) ∧
    (1 ≤ n → (ri.length : Int) ≠ n →
      simulate_queue n ri rs = .error .lengthMismatch) ∧
    (1 ≤ n → (rs.length : Int) ≠ n →
      simulate_queue n ri rs = .error .lengthMismatch) ∧
    (∀ recs, simulate_queue n ri rs = .ok recs →
      1 ≤ n ∧ (ri.length : Int) = n ∧ (rs.length : Int) = n) := by
  refine ⟨?_, ?_, ?_, ?_⟩
  · intro hn
    unfold simulate_queue
    rw [if_pos (show n ≤ 0 by omega)]
  · intro hn hlen
    unfold simulate_queue
    rw [if_neg (show ¬n ≤ 0 by omega), if_pos (Or.inl hlen)]
  · intro hn hlen
    unfold simulate_queue
    rw [if_neg (show ¬n ≤ 0 by omega), if_pos (Or.inr hlen)]
  · intro recs hrecs
    unfold simulate_queue at hrecs
    by_cases hn : n ≤ 0
    · rw [if_pos hn] at hrecs; simp at hrecs
    · rw [if_neg hn] at hrecs
      by_cases hlen : (ri.length : Int) ≠ n ∨ (rs.length : Int) ≠ n
      · rw [if_pos hlen] at hrecs; simp at hrecs
      · push_neg at hlen
        exact ⟨by omega, hlen.1, hlen.2⟩

/-- Witness for C7: `n = 0` is rejected; `n = 1` with a wrong-length `rnIat`
or `rnSt` is rejected; and a successful `n = 2` run implies the validations
held. -/
theorem claim_c7_witness :
    simulate_queue 0 [] [] = .error .invalidCount ∧
    simulate_queue 1 [] [17] = .error .lengthMismatch ∧
    simulate_queue 1 [5] [] = .error .lengthMismatch ∧
    (1 ≤ (2 : Int) ∧ ((([126, 126] : List Int).length : Int) = 2 ∧
      (([30, 30] : List Int).length : Int) = 2)) :=
  ⟨(claim_c7_fail_fast 0 [] []).1 (by omega),
   (claim_c7_fail_fast 1 [] [17]).2.1 (by omega) (by decide),
   (claim_c7_fail_fast 1 [5] []).2.2.1 (by omega) (by decide),
   ⟨((claim_c7_fail_fast 2 [126, 126] [30, 30]).2.2.2
      [⟨1, 126, 0, 0, 30, 2, 0, 0, 2, 2, 0⟩, ⟨2, 126, 2, 2, 30, 2, 2, 0, 4, 2, 0⟩]
      rfl).1,
    ((claim_c7_fail_fast 2 [126, 126] [30, 30]).2.2.2
      [⟨1, 126, 0, 0, 30, 2, 0, 0, 2, 2, 0⟩, ⟨2, 126, 2, 2, 30, 2, 2, 0, 4, 2, 0⟩]
      rfl).2⟩⟩

/-- C8: the spec's concrete scenario `n = 2`, `rnIat = [500, 1000]`,
`rnSt = [1, 100]`: the two records are exactly as claimed and the derived
utilization is `(1+6)/(1+6+7) = 1/2`. -/
theorem claim_c8_concrete_run :
    simulate_queue 2 [500, 1000] [1, 100] =
      .ok [⟨1, 500, 0, 0, 1, 1, 0, 0, 1, 1, 0⟩,
           ⟨2, 1000, 8, 8, 100, 6, 8, 0, 14, 6, 7⟩] ∧
    compute_summaries [⟨1, 500, 0, 0, 1, 1, 0, 0, 1, 1, 0⟩,
           ⟨2, 1000, 8, 8, 100, 6, 8, 0, 14, 6, 7⟩] =
      .ok ⟨0, 0, 7, (1 + 6) / (1 + 6 + 7), 14⟩ :=
  ⟨rfl, by norm_num [compute_summaries]⟩

/-- C9: `compute_summaries` fails on an empty record sequence instead of
returning a summary. -/
theorem claim_c9_empty_input :
    compute_summaries [] = .error .emptyInput := rfl

/-! ### Strictly increasing service-end times (for C10) -/

lemma chain_simLoop_tse : ∀ (ps : List ((Int × Int) × (Int × Int))),
    (∀ p ∈ ps, 1 ≤ p.2.2) → ∀ (r : Record) (idx : Int),
    List.Chain' (fun a b : Record => a.tse < b.tse)
      (r :: simLoop r.arrival r.tse idx ps) := by
  intro ps
  induction ps with
  | nil => intro _ r idx; simp [simLoop]
  | cons p t ih =>
    obtain ⟨⟨ri, iatv⟩, rs, stv⟩ := p
    intro hst r idx
    simp only [simLoop]
    refine List.Chain'.cons ?_
      (ih (fun q hq => hst q (List.mem_cons_of_mem _ hq)) _ (idx + 1))
    have h1 : 1 ≤ stv := hst _ (List.mem_cons_self _ _)
    have h2 := le_max_left r.tse (r.arrival + iatv)
    show r.tse < max r.tse (r.arrival + iatv) + stv
    omega

lemma zip_st_ge_one {rsR stR : List Int}
    (hSR : mapE service_time_from_rn rsR = .ok stR) {riR iatR : List Int} :
    ∀ p ∈ (riR.zip iatR).zip (rsR.zip stR), 1 ≤ p.2.2 := by
  intro p hp
  have hmem2 : p.2.2 ∈ stR := mem_zip_right (mem_zip_right hp)
  obtain ⟨x, -, hx⟩ := mapE_ok_forall hSR _ hmem2
  exact (service_ok_range hx).1

lemma tse_chain {n : Int} {ri rs : List Int} {recs : List Record}
    (h : simulate_queue n ri rs = .ok recs) :
    List.Chain' (fun a b : Record => a.tse < b.tse) recs := by
  obtain ⟨ri0, riR, rs0, rsR, iatR, st0, stR, -, -, -, -, hSR, hrecs⟩ :=
    simulate_queue_ok_shape h
  subst hrecs
  exact chain_simLoop_tse _ (zip_st_ge_one hSR) (firstRecord ri0 rs0 st0) 2

lemma le_getLast_tse : ∀ (l : List Record),
    List.Chain' (fun a b : Record => a.tse < b.tse) l →
    ∀ (hne : l ≠ []), ∀ r ∈ l, r.tse ≤ (l.getLast hne).tse := by
  intro l
  induction l with
  | nil => intro _ hne; exact absurd rfl hne
  | cons a t ih =>
    intro hc hne r hr
    cases t with
    | nil =>
      rcases List.mem_singleton.mp hr with rfl
      exact le_refl _
    | cons b t2 =>
      rw [List.chain'_cons] at hc
      rw [List.getLast_cons (List.cons_ne_nil b t2)]
      rcases List.mem_cons.mp hr with rfl | hr
      · exact le_trans (le_of_lt hc.1)
          (ih hc.2 (List.cons_ne_nil b t2) b (List.mem_cons_self b t2))
      · exact ih hc.2 (List.cons_ne_nil b t2) r hr

/-- C10: in every successful `simulate_queue` run the `tse` column is strictly
increasing (every mapped service time is at least 1), and therefore the last
record's `tse` — the horizon end — is the maximum over all records. -/
theorem claim_c10_tse_increasing {n : Int} {ri rs : List Int}
    {recs : List Record} (h : simulate_queue n ri rs = .ok recs) :
    (∀ i, 1 ≤ i → ∀ h2 : i < recs.length,
      (recs.get ⟨i - 1, by omega⟩).tse < (recs.get ⟨i, h2⟩).tse) ∧
    (∀ hne : recs ≠ [], ∀ r ∈ recs, r.tse ≤ (recs.getLast hne).tse) := by
  have hchain := tse_chain h
  constructor
  · intro i h1 h2
    have hc := List.chain'_iff_get.mp hchain
    obtain ⟨j, rfl⟩ : ∃ j, i = j + 1 := ⟨i - 1, by omega⟩
    simpa [Nat.add_sub_cancel] using hc j (by omega)
  · exact le_getLast_tse recs hchain

/-- Witness for C10: the run `n = 2`, `rnIat = [1, 1]`, `rnSt = [1, 1]`:
`tse = [1, 2]` is strictly increasing and the first record's `tse` is bounded
by the last. -/
theorem claim_c10_witness :
    simulate_queue 2 [1, 1] [1, 1] =
      .ok [⟨1, 1, 0, 0, 1, 1, 0, 0, 1, 1, 0⟩,
           ⟨2, 1, 1, 1, 1, 1, 1, 0, 2, 1, 0⟩] ∧
    (1 : Int) < 2 ∧ (1 : Int) ≤ 2 :=
  ⟨rfl,
   (@claim_c10_tse_increasing 2 [1, 1] [1, 1]
     [⟨1, 1, 0, 0, 1, 1, 0, 0, 1, 1, 0⟩, ⟨2, 1, 1, 1, 1, 1, 1, 0, 2, 1, 0⟩]
     rfl).1 1 (by omega) (by decide),
   (@claim_c10_tse_increasing 2 [1, 1] [1, 1]
     [⟨1, 1, 0, 0, 1, 1, 0, 0, 1, 1, 0⟩, ⟨2, 1, 1, 1, 1, 1, 1, 0, 2, 1, 0⟩]
     rfl).2 (by decide) ⟨1, 1, 0, 0, 1, 1, 0, 0, 1, 1, 0⟩ (by decide)⟩

/-! ### Summary aggregation (for C6) -/

lemma foldl_max_le : ∀ (l : List Int) (a : Int),
    a ≤ l.foldl max a ∧ ∀ x ∈ l, x ≤ l.foldl max a := by
  intro l
  induction l with
  | nil => intro a; exact ⟨le_refl a, by simp⟩
  | cons b t ih =>
    intro a
    refine ⟨le_trans (le_max_left a b) (ih (max a b)).1, ?_⟩
    intro x hx
    rcases List.mem_cons.mp hx with rfl | hx
    · exact le_trans (le_max_right a x) (ih (max a x)).1
    · exact (ih (max a b)).2 x hx

lemma foldl_max_mem : ∀ (l : List Int) (a : Int),
    l.foldl max a = a ∨ l.foldl max a ∈ l := by
  intro l
  induction l with
  | nil => intro a; exact Or.inl rfl
  | cons b t ih =>
    intro a
    rcases ih (max a b) with h | h
    · rcases max_choice a b with hm | hm
      · exact Or.inl (h.trans hm)
      · exact Or.inr (List.mem_cons.mpr (Or.inl (h.trans hm)))
    · exact Or.inr (List.mem_cons_of_mem b h)

lemma compute_summaries_spec (r0 : Record) (rest : List Record)
    (hmem : ∀ r ∈ r0 :: rest, 1 ≤ r.st ∧ 0 ≤ r.wt ∧ 0 ≤ r.idle) :
    ∃ s, compute_summaries (r0 :: rest) = .ok s ∧
      s.avg_wait = ((((r0 :: rest).map fun r => r.wt).sum : Int) : ℚ) /
        ((r0 :: rest).length : ℚ) ∧
      (∀ r ∈ r0 :: rest, r.wt ≤ s.max_wait) ∧
      (∃ r ∈ r0 :: rest, r.wt = s.max_wait) ∧
      s.total_idle = ((r0 :: rest).map fun r => r.idle).sum ∧
      (s.util =
        if ((r0 :: rest).map fun r => r.st).sum +
            ((r0 :: rest).map fun r => r.idle).sum = 0 then 0
        else ((((r0 :: rest).map fun r => r.st).sum : Int) : ℚ) /
          (((((r0 :: rest).map fun r => r.st).sum +
             ((r0 :: rest).map fun r => r.idle).sum : Int)) : ℚ)) ∧
      (∀ hne : (r0 :: rest) ≠ [], s.horizon_end = ((r0 :: rest).getLast hne).tse) ∧
      0 ≤ s.util ∧ s.util ≤ 1 := by
  have hst0 : 1 ≤ r0.st := (hmem r0 (List.mem_cons_self r0 rest)).1
  have hstR : 0 ≤ (rest.map fun r => r.st).sum := by
    refine List.sum_nonneg ?_
    intro x hx
    obtain ⟨r, hr, rfl⟩ := List.mem_map.mp hx
    have := (hmem r (List.mem_cons_of_mem r0 hr)).1
    omega
  have hts : 1 ≤ ((r0 :: rest).map fun r => r.st).sum := by
    simp only [List.map_cons, List.sum_cons]
    omega
  have hti : 0 ≤ ((r0 :: rest).map fun r => r.idle).sum := by
    refine List.sum_nonneg ?_
    intro x hx
    obtain ⟨r, hr, rfl⟩ := List.mem_map.mp hx
    exact (hmem r hr).2.2
  have hpos : 0 < ((r0 :: rest).map fun r => r.st).sum +
      ((r0 :: rest).map fun r => r.idle).sum := by omega
  refine ⟨_, rfl, ?_, ?_, ?_, rfl, ?_, fun _ => rfl, ?_, ?_⟩
  · show (((((r0 :: rest).map fun r => r.wt).sum : Int)) : ℚ) /
        (((((r0 :: rest).length : Nat) : Int)) : ℚ) = _
    simp only [Int.cast_natCast]
  · intro r hr
    rcases List.mem_cons.mp hr with rfl | hr
    · exact (foldl_max_le (rest.map fun r => r.wt) r.wt).1
    · exact (foldl_max_le (rest.map fun r => r.wt) r0.wt).2 _
        (List.mem_map_of_mem _ hr)
  · rcases foldl_max_mem (rest.map fun r => r.wt) r0.wt with hm | hm
    · exact ⟨r0, List.mem_cons_self r0 rest, hm.symm⟩
    · obtain ⟨r, hr, hwt⟩ := List.mem_map.mp hm
      exact ⟨r, List.mem_cons_of_mem r0 hr, hwt⟩
  · show (if 0 < ((r0 :: rest).map fun r => r.st).sum +
        ((r0 :: rest).map fun r => r.idle).sum then
        (((((r0 :: rest).map fun r => r.st).sum : Int)) : ℚ) /
          ((((((r0 :: rest).map fun r => r.st).sum +
            ((r0 :: rest).map fun r => r.idle).sum : Int))) : ℚ)
      else 0) = _
    rw [if_pos hpos, if_neg (by omega)]
  · show (0 : ℚ) ≤ if 0 < ((r0 :: rest).map fun r => r.st).sum +
        ((r0 :: rest).map fun r => r.idle).sum then
        (((((r0 :: rest).map fun r => r.st).sum : Int)) : ℚ) /
          ((((((r0 :: rest).map fun r => r.st).sum +
            ((r0 :: rest).map fun r => r.idle).sum : Int))) : ℚ)
      else 0
    rw [if_pos hpos]
    exact div_nonneg (by exact_mod_cast (by omega : (0 : Int) ≤ _))
      (by exact_mod_cast (by omega : (0 : Int) ≤ _))
  · show (if 0 < ((r0 :: rest).map fun r => r.st).sum +
        ((r0 :: rest).map fun r => r.idle).sum then
        (((((r0 :: rest).map fun r => r.st).sum : Int)) : ℚ) /
          ((((((r0 :: rest).map fun r => r.st).sum +
            ((r0 :: rest).map fun r => r.idle).sum : Int))) : ℚ)
      else 0) ≤ 1
    rw [if_pos hpos]
    rw [div_le_one (by exact_mod_cast hpos)]
    exact_mod_cast (by omega : ((r0 :: rest).map fun r => r.st).sum ≤
      ((r0 :: rest).map fun r => r.st).sum + ((r0 :: rest).map fun r => r.idle).sum)

/-- C6: for the record sequence of any successful `simulate_queue` run,
`compute_summaries` returns average wait = (sum of `wt`)/(number of records),
max wait = the maximum of the `wt` column (an attained upper bound), total
idle = sum of `idle`, utilization = totalService/(totalService+totalIdle)
(0 if both totals are 0), horizon end = last record's `tse`, and the
utilization lies in `[0, 1]`. -/
theorem claim_c6_summary {n : Int} {ri rs : List Int} {recs : List Record}
    (h : simulate_queue n ri rs = .ok recs) :
    ∃ s, compute_summaries recs = .ok s ∧
      s.avg_wait = (((recs.map fun r => r.wt).sum : Int) : ℚ) / (recs.length : ℚ) ∧
      (∀ r ∈ recs, r.wt ≤ s.max_wait) ∧
      (∃ r ∈ recs, r.wt = s.max_wait) ∧
      s.total_idle = (recs.map fun r => r.idle).sum ∧
      (s.util =
        if (recs.map fun r => r.st).sum + (recs.map fun r => r.idle).sum = 0
        then 0
        else (((recs.map fun r => r.st).sum : Int) : ℚ) /
          ((((recs.map fun r => r.st).sum +
             (recs.map fun r => r.idle).sum : Int)) : ℚ)) ∧
      (∀ hne : recs ≠ [], s.horizon_end = (recs.getLast hne).tse) ∧
      0 ≤ s.util ∧ s.util ≤ 1 := by
  have hmem := simulate_queue_mem_inv h
  obtain ⟨ri0, riR, rs0, rsR, iatR, st0, stR, -, -, -, -, -, hrecs⟩ :=
    simulate_queue_ok_shape h
  subst hrecs
  exact compute_summaries_spec _ _ hmem

/-- Witness for C6: the run `n = 1`, `rnIat = [1]`, `rnSt = [1]`, whose single
record is `⟨1, 1, 0, 0, 1, 1, 0, 0, 1, 1, 0⟩`. -/
theorem claim_c6_witness :
    ∃ s, compute_summaries [⟨1, 1, 0, 0, 1, 1, 0, 0, 1, 1, 0⟩] = .ok s ∧
      s.avg_wait = (((0 : Int)) : ℚ) / (((1 : Nat)) : ℚ) ∧
      (∀ r ∈ [(⟨1, 1, 0, 0, 1, 1, 0, 0, 1, 1, 0⟩ : Record)], r.wt ≤ s.max_wait) ∧
      (∃ r ∈ [(⟨1, 1, 0, 0, 1, 1, 0, 0, 1, 1, 0⟩ : Record)], r.wt = s.max_wait) ∧
      s.total_idle = (0 : Int) ∧
      (s.util = if (1 : Int) + 0 = 0 then 0
        else (((1 : Int)) : ℚ) / (((1 + 0 : Int)) : ℚ)) ∧
      (∀ hne : [(⟨1, 1, 0, 0, 1, 1, 0, 0, 1, 1, 0⟩ : Record)] ≠ [],
        s.horizon_end =
          (([(⟨1, 1, 0, 0, 1, 1, 0, 0, 1, 1, 0⟩ : Record)]).getLast hne).tse) ∧
      0 ≤ s.util ∧ s.util ≤ 1 :=
  @claim_c6_summary 1 [1] [1] [⟨1, 1, 0, 0, 1, 1, 0, 0, 1, 1, 0⟩] rfl
